import Mathlib

/-!
Verification of the AluVM bytecode cursor (src/encoding/cursor.rs) and
register model (src/lib.rs) against the natural-language specification.

The Rust code is shallowly embedded: bytes are `Nat` values below 256,
machine integers are `Nat`/`Int` with explicit `% 2 ^ w` where the source
performs wrapping machine arithmetic, and each fallible cursor method
returns an `Outcome` that either succeeds with the updated cursor, fails
with a `CursorError` and the cursor state left behind by the in-place
mutation, or aborts the process (`fatal`) where the Rust code would
panic (failed `assert!`, out-of-range slice indexing, `expect`).
-/

namespace AluVM

/-- Errors of cursor-based operations, from `enum CursorError`:
`Eof` (attempt to read or write after end of data) and
`OutOfBoundaries(usize)` (access at a position outside data boundaries). -/
inductive CursorError where
  | Eof : CursorError
  | OutOfBoundaries : Nat → CursorError
deriving DecidableEq, Repr

/-- `struct Cursor`: underlying byte string, current byte offset (`u16`),
current bit offset within the byte (`u3`), and the end-of-buffer flag. -/
structure Cursor where
  bytecode : List Nat
  byte_pos : Nat
  bit_pos : Nat
  eof : Bool
deriving DecidableEq, Repr

/-- Result of a cursor method: `ok`/`err` carry the cursor as mutated in
place by the Rust method up to the point of return; `fatal` models a Rust
panic (assertion failure or out-of-range slice access), which aborts the
process and leaves no observable state. -/
inductive Outcome (α : Type) where
  | ok : α → Cursor → Outcome α
  | err : CursorError → Cursor → Outcome α
  | fatal : Outcome α
deriving DecidableEq, Repr

/-- Whether the outcome is a success. -/
def Outcome.isOk : Outcome α → Bool
  | .ok _ _ => true
  | _ => false

/-- Models Rust's `result.map(|_| val)` on cursor methods returning
`Result<(), CursorError>`. -/
def Outcome.withVal : Outcome α → β → Outcome β
  | .ok _ c, v => .ok v c
  | .err e c, _ => .err e c
  | .fatal, _ => .fatal

/-- `Cursor::with`: creates a cursor at byte 0, bit 0, with the
end-of-buffer flag unset. -/
def Cursor.make (bytecode : List Nat) : Cursor :=
  { bytecode := bytecode, byte_pos := 0, bit_pos := 0, eof := false }

/-- `Cursor::is_eof`. -/
def Cursor.is_eof (c : Cursor) : Bool := c.eof

/-- `Cursor::pos`. -/
def Cursor.pos (c : Cursor) : Nat := c.byte_pos

/-- `Cursor::seek`. -/
def Cursor.seek (c : Cursor) (byte_pos : Nat) : Cursor :=
  { c with byte_pos := byte_pos }

/-- `Read::is_end` for `Cursor<&[u8]>`. -/
def Cursor.is_end (c : Cursor) : Bool := c.byte_pos ≥ c.bytecode.length

/-- The mask-building loop of `Cursor::extract`: `bit_count` iterations of
`mask <<= 1; mask |= 0x01` starting from `0x00`. -/
def mkMask : Nat → Nat
  | 0 => 0
  | n + 1 => (mkMask n <<< 1) ||| 1

/-- `Cursor::_inc_bytes_inner`: a 1-byte advance from offset `u16::MAX`
sets the end-of-buffer flag; otherwise the offset is advanced with
`checked_add`, failing with `OutOfBoundaries` at the attempted position
when the sum exceeds `u16::MAX`. -/
def _inc_bytes_inner (c : Cursor) (byte_count : Nat) : Outcome Unit :=
  if byte_count = 1 ∧ c.byte_pos = 65535 then
    .ok () { c with eof := true }
  else if c.byte_pos + byte_count ≤ 65535 then
    .ok () { c with byte_pos := c.byte_pos + byte_count }
  else
    .err (.OutOfBoundaries (c.byte_pos + byte_count)) c

/-- `Cursor::inc_bits`: fails with `Eof` when the flag is set, else sets
`bit_pos := (bit_pos + bit_count) % 8` (this mutation is visible even when
the subsequent byte advance fails) and advances by
`(bit_pos + bit_count) / 8` bytes. -/
def inc_bits (c : Cursor) (bit_count : Nat) : Outcome Unit :=
  if c.eof then .err .Eof c
  else
    _inc_bytes_inner { c with bit_pos := (c.bit_pos + bit_count) % 8 }
      ((c.bit_pos + bit_count) / 8)

/-- `Cursor::inc_bytes`: `assert_eq!(bit_pos, 0, ..)` aborts on a
non-byte-aligned position (checked before the end-of-buffer flag), then
fails with `Eof` when the flag is set, else delegates to
`_inc_bytes_inner`. -/
def inc_bytes (c : Cursor) (byte_count : Nat) : Outcome Unit :=
  if c.bit_pos ≠ 0 then .fatal
  else if c.eof then .err .Eof c
  else _inc_bytes_inner c byte_count

/-- `Cursor::extract`: fails with `Eof` when the flag is set, indexes the
current byte (panicking when `byte_pos` is outside the byte string),
extracts `bit_count` bits at `bit_pos` with a shifted mask in `u8`
arithmetic, and advances the bit offset. -/
def extract (c : Cursor) (bit_count : Nat) : Outcome Nat :=
  if c.eof then .err .Eof c
  else if c.byte_pos < c.bytecode.length then
    (inc_bits c bit_count).withVal
      (((c.bytecode.getD c.byte_pos 0) &&& ((mkMask bit_count <<< c.bit_pos) % 256))
        >>> c.bit_pos)
  else .fatal

/-- `Read::peek_u8`: `Eof` check, then indexes the current byte without
advancing (panicking when out of range). -/
def peek_u8 (c : Cursor) : Outcome Nat :=
  if c.eof then .err .Eof c
  else if c.byte_pos < c.bytecode.length then
    .ok (c.bytecode.getD c.byte_pos 0) c
  else .fatal

/-- `Read::read_bool`: `Eof` check, one-bit extract, compares with `0x01`. -/
def read_bool (c : Cursor) : Outcome Bool :=
  if c.eof then .err .Eof c
  else
    match extract c 1 with
    | .ok byte c1 => .ok (byte == 1) c1
    | .err e c1 => .err e c1
    | .fatal => .fatal

/-- Models `Read::read_u1` .. `Read::read_u7` uniformly in the width `w`:
each is `extract(w)` followed by a `try_into().expect(..)` conversion that
cannot fail because the extracted value is already masked to `w` bits. -/
def read_uN (c : Cursor) (w : Nat) : Outcome Nat := extract c w

/-- `Read::read_u8`: `Eof` check, indexes the current byte (panicking when
out of range), then `inc_bytes(1)`. -/
def read_u8 (c : Cursor) : Outcome Nat :=
  if c.eof then .err .Eof c
  else if c.byte_pos < c.bytecode.length then
    (inc_bytes c 1).withVal (c.bytecode.getD c.byte_pos 0)
  else .fatal

/-- `Read::read_u16`: `Eof` check, copies `bytecode[pos..pos + 2]`
(panicking when the slice overruns the byte string), decodes
little-endian, then `inc_bytes(2)`. -/
def read_u16 (c : Cursor) : Outcome Nat :=
  if c.eof then .err .Eof c
  else if c.byte_pos + 2 ≤ c.bytecode.length then
    (inc_bytes c 2).withVal
      (c.bytecode.getD c.byte_pos 0 + 256 * c.bytecode.getD (c.byte_pos + 1) 0)
  else .fatal

/-- `Read::read_i16`: as `read_u16` but decoding two's-complement
little-endian into an integer. -/
def read_i16 (c : Cursor) : Outcome Int :=
  if c.eof then .err .Eof c
  else if c.byte_pos + 2 ≤ c.bytecode.length then
    (inc_bytes c 2).withVal
      (let u := c.bytecode.getD c.byte_pos 0 + 256 * c.bytecode.getD (c.byte_pos + 1) 0
       if u < 32768 then (u : Int) else (u : Int) - 65536)
  else .fatal

/-- `Read::read_bytes32`: `Eof` check, copies `bytecode[pos..pos + 32]`
(panicking when the slice overruns the byte string), then
`inc_bytes(32)`. -/
def read_bytes32 (c : Cursor) : Outcome (List Nat) :=
  if c.eof then .err .Eof c
  else if c.byte_pos + 32 ≤ c.bytecode.length then
    (inc_bytes c 32).withVal ((c.bytecode.drop c.byte_pos).take 32)
  else .fatal

/-- `Read::read_slice`: `Eof` check, reads the little-endian `u16` length
prefix, advances by `2u16 + len as u16` (`u16` wrapping arithmetic, hence
the `% 65536`), and only after that advance succeeds indexes
`bytecode[pos..pos + len]` (panicking when the slice overruns the byte
string). -/
def read_slice (c : Cursor) : Outcome (List Nat) :=
  if c.eof then .err .Eof c
  else
    match read_u16 c with
    | .ok len c1 =>
      match inc_bytes c1 ((2 + len) % 65536) with
      | .ok _ c2 =>
        if c1.byte_pos + len ≤ c2.bytecode.length then
          .ok ((c2.bytecode.drop c1.byte_pos).take len) c2
        else .fatal
      | .err e c2 => .err e c2
      | .fatal => .fatal
    | .err e c1 => .err e c1
    | .fatal => .fatal

/-- Modelled from the spec: the bit layout of a `Number` — a byte width
plus signedness — from `crate::reg`, which is not among the provided
source files. -/
structure Layout where
  bytelen : Nat
  signed : Bool
deriving DecidableEq, Repr

/-- Modelled from the spec: `reg.layout().using_sign(value.layout())`
keeps the register layout's width and takes the value's signedness. -/
def Layout.using_sign (l other : Layout) : Layout :=
  { bytelen := l.bytelen, signed := other.signed }

/-- Modelled from the spec: `Number` from `crate::reg` (not among the
provided source files) — a variable-width integer as little-endian bytes
with an explicit layout (width + signedness). -/
structure Number where
  bytes : List Nat
  signed : Bool
deriving DecidableEq, Repr

/-- `Number::len`: the native byte length of the value. -/
def Number.len (n : Number) : Nat := n.bytes.length

/-- The layout of a `Number`: its byte length and signedness. -/
def Number.layout (n : Number) : Layout :=
  { bytelen := n.bytes.length, signed := n.signed }

/-- Modelled from the spec: `Number::from_slice` constructs a value from a
raw byte slice. -/
def Number.from_slice (bytes : List Nat) : Number :=
  { bytes := bytes, signed := false }

/-- Modelled from the spec: `Number::reshape` to a target layout —
truncation to the target width when the value is at least as long,
otherwise extension with the sign byte (`0xFF` for a negative signed
value, `0x00` otherwise; the sign lives in the most significant, i.e.
last, little-endian byte). -/
def Number.reshape (n : Number) (target : Layout) : Number :=
  if target.bytelen ≤ n.bytes.length then
    { bytes := n.bytes.take target.bytelen, signed := target.signed }
  else
    { bytes := n.bytes ++ List.replicate (target.bytelen - n.bytes.length)
        (if n.signed ∧ 128 ≤ (n.bytes.getLast?.getD 0) then 255 else 0),
      signed := target.signed }

/-- Modelled from the spec: the `RegisterSet` capability used by
`read_value`/`write_value` — a register reference exposing its bit width
(`bits()`) and its layout. -/
structure RegSpec where
  bits : Nat
deriving DecidableEq, Repr

/-- The destination register's layout: `bits() / 8` bytes. -/
def RegSpec.layout (r : RegSpec) : Layout :=
  { bytelen := r.bits / 8, signed := false }

/-- `Read::read_value`: `Eof` check, takes `reg.bits() / 8` bytes at the
current position via `Number::from_slice` (panicking when the slice
overruns the byte string), then advances by that many bytes. -/
def read_value (c : Cursor) (reg : RegSpec) : Outcome Number :=
  if c.eof then .err .Eof c
  else if c.byte_pos + reg.bits / 8 ≤ c.bytecode.length then
    (inc_bytes c (reg.bits / 8)).withVal
      (Number.from_slice ((c.bytecode.drop c.byte_pos).take (reg.bits / 8)))
  else .fatal

/-- Models `copy_from_slice` into `bytecode[start..start + data.length]`. -/
def setRange (l : List Nat) (start : Nat) (data : List Nat) : List Nat :=
  l.take start ++ data ++ l.drop (start + data.length)

/-- `Write::write_bool`: ORs the bit into the current byte (panicking when
`byte_pos` is out of range) and then advances one bit — the `Eof` check
only happens inside `inc_bits`, after the buffer mutation. -/
def write_bool (c : Cursor) (data : Bool) : Outcome Unit :=
  if c.byte_pos < c.bytecode.length then
    let byte := (c.bytecode.getD c.byte_pos 0) ||| (((if data then 1 else 0) <<< c.bit_pos) % 256)
    inc_bits { c with bytecode := c.bytecode.set c.byte_pos byte } 1
  else .fatal

/-- Models `Write::write_u1` .. `Write::write_u7` uniformly in the width
`w`: the value is shifted by `bit_pos` in `u8` arithmetic (hence `% 256`:
bits pushed beyond the byte are silently dropped), ORed into the current
byte (panicking when `byte_pos` is out of range), then the bit offset
advances by `w` — the `Eof` check only happens inside `inc_bits`, after
the buffer mutation. -/
def write_uN (c : Cursor) (w : Nat) (data : Nat) : Outcome Unit :=
  if c.byte_pos < c.bytecode.length then
    let byte := (c.bytecode.getD c.byte_pos 0) ||| ((data <<< c.bit_pos) % 256)
    inc_bits { c with bytecode := c.bytecode.set c.byte_pos byte } w
  else .fatal

/-- `Write::write_u8`: stores the byte (panicking when `byte_pos` is out
of range), then `inc_bytes(1)` — alignment assertion and `Eof` check only
happen after the buffer mutation. -/
def write_u8 (c : Cursor) (data : Nat) : Outcome Unit :=
  if c.byte_pos < c.bytecode.length then
    inc_bytes { c with bytecode := c.bytecode.set c.byte_pos data } 1
  else .fatal

/-- `Write::write_u16`: stores the two little-endian bytes (panicking when
either index is out of range), then `inc_bytes(2)`. -/
def write_u16 (c : Cursor) (data : Nat) : Outcome Unit :=
  if c.byte_pos + 2 ≤ c.bytecode.length then
    let buf := (c.bytecode.set c.byte_pos (data % 256)).set (c.byte_pos + 1) (data / 256 % 256)
    inc_bytes { c with bytecode := buf } 2
  else .fatal

/-- `Write::write_i16`: as `write_u16` with the two's-complement
little-endian bytes of the integer. -/
def write_i16 (c : Cursor) (data : Int) : Outcome Unit :=
  if c.byte_pos + 2 ≤ c.bytecode.length then
    let u := (data.emod 65536).toNat
    let buf := (c.bytecode.set c.byte_pos (u % 256)).set (c.byte_pos + 1) (u / 256 % 256)
    inc_bytes { c with bytecode := buf } 2
  else .fatal

/-- `Write::write_bytes32`: copies the 32 bytes into
`bytecode[from..from + 32]` (panicking when the range overruns the byte
string), then `inc_bytes(32)`. -/
def write_bytes32 (c : Cursor) (data : List Nat) : Outcome Unit :=
  if c.byte_pos + data.length ≤ c.bytecode.length then
    inc_bytes { c with bytecode := setRange c.bytecode c.byte_pos data } 32
  else .fatal

/-- `Write::write_slice`: rejects data of length `>= u16::MAX` with
`OutOfBoundaries(len)` before touching the buffer; otherwise writes the
`u16` length prefix via `write_u16` (which advances by 2), copies the data
at the new position (panicking when it overruns the byte string), and then
advances by `2u16 + len as u16` more bytes (`u16` wrapping arithmetic,
hence the `% 65536`). -/
def write_slice (c : Cursor) (bytes : List Nat) : Outcome Unit :=
  if bytes.length ≥ 65535 then .err (.OutOfBoundaries bytes.length) c
  else
    match write_u16 c bytes.length with
    | .ok _ c1 =>
      if c1.byte_pos + bytes.length ≤ c1.bytecode.length then
        let buf := setRange c1.bytecode c1.byte_pos bytes
        inc_bytes { c1 with bytecode := buf } ((2 + bytes.length) % 65536)
      else .fatal
    | .err e c1 => .err e c1
    | .fatal => .fatal

/-- `Write::write_value`: computes `len = reg.bits() / 8`, runs
`assert!(len <= value.len(), ..)` (aborting when the assert fails),
reshapes the value to the register layout with the value's signedness,
copies `value.len()` bytes into the buffer (panicking when the range
overruns the byte string), then advances by `len` bytes. -/
def write_value (c : Cursor) (reg : RegSpec) (value : Number) : Outcome Unit :=
  if reg.bits / 8 ≤ value.len then
    let v := value.reshape (reg.layout.using_sign value.layout)
    if c.byte_pos + v.len ≤ c.bytecode.length then
      let buf := setRange c.bytecode c.byte_pos v.bytes
      inc_bytes { c with bytecode := buf } (reg.bits / 8)
    else .fatal
  else .fatal

/-- `struct Registers` from src/lib.rs: the seven fixed-width arithmetic
banks plus the arbitrary-precision bank `ap`, the eight non-arithmetic
`r*` banks, the string bank `s16` (each with 32 optional slots), the
comparison flag `cm0`, the status flag `st0`, the 16-bit jump counter
`cy0`, the call stack `cs0` of `u16::MAX` entries and its top `cp0`. -/
structure Registers where
  a8 : Fin 32 → Option Nat
  a16 : Fin 32 → Option Nat
  a32 : Fin 32 → Option Nat
  a64 : Fin 32 → Option Nat
  a128 : Fin 32 → Option Nat
  a256 : Fin 32 → Option Nat
  a512 : Fin 32 → Option Nat
  ap : Fin 32 → Option (List Nat)
  r128 : Fin 32 → Option (List Nat)
  r160 : Fin 32 → Option (List Nat)
  r256 : Fin 32 → Option (List Nat)
  r512 : Fin 32 → Option (List Nat)
  r1024 : Fin 32 → Option (List Nat)
  r2048 : Fin 32 → Option (List Nat)
  r4096 : Fin 32 → Option (List Nat)
  r8192 : Fin 32 → Option (List Nat)
  s16 : Fin 32 → Option (List Nat)
  cm0 : Ordering
  st0 : Bool
  cy0 : Nat
  cs0 : Fin 65535 → Option (List Nat) × Nat
  cp0 : Nat

/-- `impl Default for Registers` builds
`Registers { st0: true, cm0: Ordering::Equal, ..Default::default() }`:
the struct-update base expression `..Default::default()` resolves to
`<Registers as Default>::default()` itself, so the call recurses without
a base case. The recursion is embedded with explicit fuel: each unit of
fuel unrolls one recursive call, and exhausted fuel (the call that never
returns) is `none`. -/
def registersDefaultFuel : Nat → Option Registers
  | 0 => none
  | n + 1 =>
    (registersDefaultFuel n).map fun base => { base with st0 := true, cm0 := .eq }

/-- Errors that move the execution engine to the Faulted state; the claims
under verification only exercise `CounterExhausted` (the jump counter
bound was reached). -/
inductive ExecError where
  | CounterExhausted
deriving DecidableEq, Repr

/-- Execution engine states per the spec: Running (carrying the jump
counter `cy0`), Halted with the final `st0`, or Faulted with an error. -/
inductive EngineState where
  | running : Nat → EngineState
  | halted : Bool → EngineState
  | faulted : ExecError → EngineState
deriving DecidableEq, Repr

/-- Modelled from the spec: the fetch-decode-dispatch loop of
`Registers::execute` is an empty stub in the source, so the jump-counter
bounding is taken from the spec — every control-transfer opcode
increments the 16-bit `cy0`, and execution must fail with
`CounterExhausted` once the counter would overflow its 16-bit range. -/
def controlTransfer : EngineState → EngineState
  | .running cy0 =>
    if cy0 + 1 ≤ 65535 then .running (cy0 + 1) else .faulted .CounterExhausted
  | s => s

/-- The engine after `n` control-transfer opcodes, starting from the
initial state (`cy0 = 0`). -/
def jumps : Nat → EngineState
  | 0 => .running 0
  | n + 1 => controlTransfer (jumps n)

/-! Helper lemmas -/

theorem mkMask_testBit (w i : Nat) : (mkMask w).testBit i = decide (i < w) := by
  induction w generalizing i with
  | zero => simp [mkMask]
  | succ n ih =>
    rcases i with _ | j
    · simp [mkMask]
    · have h1 : Nat.testBit 1 (j + 1) = false := by
        rw [show (1 : Nat) = 2 ^ 0 from rfl, Nat.testBit_two_pow]
        simp
      simp [mkMask, Nat.testBit_or, Nat.testBit_shiftLeft, ih, h1]

theorem mkMask_eq (w : Nat) : mkMask w = 2 ^ w - 1 :=
  Nat.eq_of_testBit_eq fun i => by
    simp [mkMask_testBit, Nat.testBit_two_pow_sub_one]

theorem jumps_running (n : Nat) (h : n ≤ 65535) : jumps n = .running n := by
  induction n with
  | zero => rfl
  | succ m ih =>
    have hm := ih (by omega)
    simp [jumps, hm, controlTransfer, h]

/-! Claim theorems -/

/-- C2 (supporting evaluation): `write_slice` of the 2-byte slice `[7, 9]`
at offset 0 round-trips the bytes through `read_slice`, but both leave the
cursor at byte offset 6 = 4 + L, not 2 + L = 4: the 2-byte length prefix
is advanced over twice (once inside `write_u16`/`read_u16` and once more
by the final `inc_bytes(2 + len)`). -/
theorem c2_slice_roundtrip_position :
    write_slice (Cursor.make (List.replicate 10 0)) [7, 9] =
      .ok () ⟨[2, 0, 7, 9, 0, 0, 0, 0, 0, 0], 6, 0, false⟩ ∧
    read_slice ⟨[2, 0, 7, 9, 0, 0, 0, 0, 0, 0], 0, 0, false⟩ =
      .ok [7, 9] ⟨[2, 0, 7, 9, 0, 0, 0, 0, 0, 0], 6, 0, false⟩ := by
  decide

/-- C3: `Registers::default()` never terminates — the struct-update base
`..Default::default()` recursively invokes `Registers::default()` itself,
so no amount of recursion fuel produces a value, contradicting the claim
that it returns a machine state with the documented defaults. -/
theorem c3_default_diverges : ∀ fuel, registersDefaultFuel fuel = none := by
  intro fuel
  induction fuel with
  | zero => rfl
  | succ n ih => simp [registersDefaultFuel, ih]

/-- C4: the contract assertion of `write_value` is reversed. With a 16-bit
destination register (byte length 2), writing a 1-byte `Number` — which fits
and should be sign-extended per the claim — aborts on
`assert!(len <= value.len())`, while a 4-byte `Number` — whose native
length exceeds the register and should abort per the claim — passes the
assert and is truncated and written. -/
theorem c4_write_value_assert :
    write_value (Cursor.make (List.replicate 8 0)) ⟨16⟩ ⟨[5], false⟩ = .fatal ∧
    write_value (Cursor.make (List.replicate 8 0)) ⟨16⟩ ⟨[1, 2, 3, 4], false⟩ =
      .ok () ⟨[1, 2, 0, 0, 0, 0, 0, 0], 2, 0, false⟩ := by
  decide

/-- C5: with the end-of-buffer flag unset, a multi-byte advance whose
landing offset would exceed 65535 fails with `OutOfBoundaries` carrying
the attempted position (current byte offset plus advance count) and the
cursor — in particular its byte offset and its unset end-of-buffer flag —
is unchanged. -/
theorem c5_multibyte_overflow (c : Cursor) (count : Nat) (_heof : c.eof = false)
    (hmulti : 2 ≤ count) (hover : 65535 < c.byte_pos + count) :
    _inc_bytes_inner c count = .err (.OutOfBoundaries (c.byte_pos + count)) c := by
  unfold _inc_bytes_inner
  rw [if_neg (by omega : ¬(count = 1 ∧ c.byte_pos = 65535)),
    if_neg (by omega : ¬(c.byte_pos + count ≤ 65535))]

/-- Witness for C5 at a concrete input. -/
theorem c5_multibyte_overflow_witness :
    _inc_bytes_inner ⟨[], 65000, 0, false⟩ 1000 =
      .err (.OutOfBoundaries 66000) ⟨[], 65000, 0, false⟩ :=
  c5_multibyte_overflow ⟨[], 65000, 0, false⟩ 1000 rfl (by norm_num) (by norm_num)

/-- C8: starting from the initial engine state, 65535 control transfers
leave the engine running with `cy0 = 65535`; the control transfer that
would push `cy0` past its 16-bit range transitions the engine to Faulted
with `CounterExhausted`, and it stays faulted — no execution performs
control transfers indefinitely. -/
theorem c8_jump_counter_bound :
    jumps 65535 = .running 65535 ∧
    jumps 65536 = .faulted .CounterExhausted ∧
    ∀ n, 65536 ≤ n → jumps n = .faulted .CounterExhausted := by
  have h1 := jumps_running 65535 le_rfl
  have h2 : jumps 65536 = .faulted .CounterExhausted := by
    show controlTransfer (jumps 65535) = _
    rw [h1]
    simp [controlTransfer]
  refine ⟨h1, h2, ?_⟩
  intro n hn
  induction n, hn using Nat.le_induction with
  | base => exact h2
  | succ m hm ih => simp [jumps, ih, controlTransfer]

/-- Witness for C8 at a concrete jump count past the bound. -/
theorem c8_jump_counter_bound_witness : jumps 70000 = .faulted .CounterExhausted :=
  c8_jump_counter_bound.2.2 70000 (by norm_num)

theorem inc_bits_eof (c : Cursor) (n : Nat) (h : c.eof = true) :
    inc_bits c n = .err .Eof c := by
  unfold inc_bits
  rw [if_pos h]

theorem inc_bits_isOk_eof (c : Cursor) (n : Nat) (h : c.eof = true) :
    (inc_bits c n).isOk = false := by
  rw [inc_bits_eof c n h]; rfl

theorem inc_bytes_isOk_eof (c : Cursor) (n : Nat) (h : c.eof = true) :
    (inc_bytes c n).isOk = false := by
  unfold inc_bytes
  by_cases hb : c.bit_pos = 0 <;> simp [hb, h, Outcome.isOk]

theorem write_u16_isOk_eof (c : Cursor) (v : Nat) (h : c.eof = true) :
    (write_u16 c v).isOk = false := by
  unfold write_u16
  split
  · exact inc_bytes_isOk_eof _ _ h
  · rfl

/-- C1 (counterexample): once the end-of-buffer flag is set, not every
write operation returns the end-of-buffer error. A `write_u8` at a byte
position outside the underlying byte string aborts on slice indexing, and
a `write_slice` of 65535 bytes returns `OutOfBoundaries`, both on cursors
whose end-of-buffer flag is set. -/
theorem c1_eof_error_counterexample :
    write_u8 ⟨[], 65535, 0, true⟩ 42 = .fatal ∧
    write_slice ⟨[0, 0], 0, 0, true⟩ (List.replicate 65535 0) =
      .err (.OutOfBoundaries 65535) ⟨[0, 0], 0, 0, true⟩ := by
  refine ⟨by decide, ?_⟩
  unfold write_slice
  rw [List.length_replicate, if_pos (by norm_num : (65535 : Nat) ≥ 65535)]

/-- C1 (amended): a single-byte advance starting at byte offset exactly
65535 sets the end-of-buffer flag, without wrapping and without an error;
once the flag is set, every subsequent read operation fails with the
end-of-buffer error, and no write operation succeeds — each write either
fails with an error or aborts on a contract violation. -/
theorem c1_eof_sentinel_amended (c c' : Cursor) (hpos : c.byte_pos = 65535)
    (heof : c'.eof = true) :
    _inc_bytes_inner c 1 = .ok () { c with eof := true } ∧
    peek_u8 c' = .err .Eof c' ∧
    read_bool c' = .err .Eof c' ∧
    (∀ w, read_uN c' w = .err .Eof c') ∧
    read_u8 c' = .err .Eof c' ∧
    read_u16 c' = .err .Eof c' ∧
    read_i16 c' = .err .Eof c' ∧
    read_bytes32 c' = .err .Eof c' ∧
    read_slice c' = .err .Eof c' ∧
    (∀ reg, read_value c' reg = .err .Eof c') ∧
    (∀ b, (write_bool c' b).isOk = false) ∧
    (∀ w v, (write_uN c' w v).isOk = false) ∧
    (∀ v, (write_u8 c' v).isOk = false) ∧
    (∀ v, (write_u16 c' v).isOk = false) ∧
    (∀ v, (write_i16 c' v).isOk = false) ∧
    (∀ d, (write_bytes32 c' d).isOk = false) ∧
    (∀ bs, (write_slice c' bs).isOk = false) ∧
    (∀ reg v, (write_value c' reg v).isOk = false) := by
  refine ⟨?_, ?_, ?_, ?_, ?_, ?_, ?_, ?_, ?_, ?_, ?_, ?_, ?_, ?_, ?_, ?_, ?_, ?_⟩
  · unfold _inc_bytes_inner
    rw [if_pos ⟨rfl, hpos⟩]
  · unfold peek_u8; rw [if_pos heof]
  · unfold read_bool; rw [if_pos heof]
  · intro w; unfold read_uN extract; rw [if_pos heof]
  · unfold read_u8; rw [if_pos heof]
  · unfold read_u16; rw [if_pos heof]
  · unfold read_i16; rw [if_pos heof]
  · unfold read_bytes32; rw [if_pos heof]
  · unfold read_slice; rw [if_pos heof]
  · intro reg; unfold read_value; rw [if_pos heof]
  · intro b
    unfold write_bool
    split
    · exact inc_bits_isOk_eof _ _ heof
    · rfl
  · intro w v
    unfold write_uN
    split
    · exact inc_bits_isOk_eof _ _ heof
    · rfl
  · intro v
    unfold write_u8
    split
    · exact inc_bytes_isOk_eof _ _ heof
    · rfl
  · intro v
    exact write_u16_isOk_eof c' v heof
  · intro v
    unfold write_i16
    split
    · exact inc_bytes_isOk_eof _ _ heof
    · rfl
  · intro d
    unfold write_bytes32
    split
    · exact inc_bytes_isOk_eof _ _ heof
    · rfl
  · intro bs
    unfold write_slice
    split
    · rfl
    · cases hw : write_u16 c' bs.length with
      | ok v1 c1 =>
        have hne := write_u16_isOk_eof c' bs.length heof
        rw [hw] at hne
        exact absurd hne (by simp [Outcome.isOk])
      | err e1 c1 => rfl
      | fatal => rfl
  · intro reg v
    unfold write_value
    split
    · dsimp only
      split
      · exact inc_bytes_isOk_eof _ _ heof
      · rfl
    · rfl

/-- Witness for C1 (amended) at concrete cursors. -/
theorem c1_eof_sentinel_amended_witness :
    _inc_bytes_inner ⟨[], 65535, 0, false⟩ 1 = .ok () ⟨[], 65535, 0, true⟩ :=
  (c1_eof_sentinel_amended ⟨[], 65535, 0, false⟩ ⟨[0], 0, 0, true⟩ rfl rfl).1

theorem inc_bytes_misaligned (c : Cursor) (n : Nat) (h : c.bit_pos ≠ 0) :
    inc_bytes c n = .fatal := by
  unfold inc_bytes
  rw [if_pos h]

theorem inc_bytes_eof_aligned (c : Cursor) (n : Nat) (hb : c.bit_pos = 0)
    (h : c.eof = true) : inc_bytes c n = .err .Eof c := by
  unfold inc_bytes
  rw [if_neg (by simp [hb]), if_pos h]

/-- C6 (counterexample): not every byte-aligned operation at a non-zero
bit offset aborts. With the end-of-buffer flag set, `read_u8` at bit
offset 1 returns the recoverable `Eof` error, and `write_slice` of 65535
bytes at bit offset 1 returns the recoverable `OutOfBoundaries` error. -/
theorem c6_misaligned_counterexample :
    read_u8 ⟨[0], 0, 1, true⟩ = .err .Eof ⟨[0], 0, 1, true⟩ ∧
    write_slice ⟨[0, 0, 0], 0, 1, false⟩ (List.replicate 65535 7) =
      .err (.OutOfBoundaries 65535) ⟨[0, 0, 0], 0, 1, false⟩ := by
  refine ⟨by decide, ?_⟩
  unfold write_slice
  rw [List.length_replicate, if_pos (by norm_num : (65535 : Nat) ≥ 65535)]

/-- C6 (amended): with the end-of-buffer flag unset — and, for
`write_slice`, data shorter than 65535 bytes — every byte-aligned cursor
operation performed while the current bit offset is non-zero aborts the
process (on the alignment assertion in `inc_bytes`, an out-of-range slice
access, or the `write_value` assert) rather than returning a recoverable
error value. -/
theorem c6_misaligned_amended (c : Cursor) (hbit : c.bit_pos ≠ 0)
    (heof : c.eof = false) :
    read_u8 c = .fatal ∧
    read_u16 c = .fatal ∧
    read_i16 c = .fatal ∧
    read_bytes32 c = .fatal ∧
    read_slice c = .fatal ∧
    (∀ reg, read_value c reg = .fatal) ∧
    (∀ v, write_u8 c v = .fatal) ∧
    (∀ v, write_u16 c v = .fatal) ∧
    (∀ v : Int, write_i16 c v = .fatal) ∧
    (∀ d, write_bytes32 c d = .fatal) ∧
    (∀ bs : List Nat, bs.length < 65535 → write_slice c bs = .fatal) ∧
    (∀ reg v, write_value c reg v = .fatal) := by
  have hne : ¬(c.eof = true) := by simp [heof]
  have h16 : read_u16 c = .fatal := by
    unfold read_u16
    rw [if_neg hne]
    split
    · rw [inc_bytes_misaligned c 2 hbit]; rfl
    · rfl
  have hw16 : ∀ v, write_u16 c v = .fatal := by
    intro v
    unfold write_u16
    split
    · exact inc_bytes_misaligned _ 2 hbit
    · rfl
  refine ⟨?_, h16, ?_, ?_, ?_, ?_, ?_, hw16, ?_, ?_, ?_, ?_⟩
  · unfold read_u8
    rw [if_neg hne]
    split
    · rw [inc_bytes_misaligned c 1 hbit]; rfl
    · rfl
  · unfold read_i16
    rw [if_neg hne]
    split
    · rw [inc_bytes_misaligned c 2 hbit]; rfl
    · rfl
  · unfold read_bytes32
    rw [if_neg hne]
    split
    · rw [inc_bytes_misaligned c 32 hbit]; rfl
    · rfl
  · unfold read_slice
    rw [if_neg hne, h16]
  · intro reg
    unfold read_value
    rw [if_neg hne]
    split
    · rw [inc_bytes_misaligned c (reg.bits / 8) hbit]; rfl
    · rfl
  · intro v
    unfold write_u8
    split
    · exact inc_bytes_misaligned _ 1 hbit
    · rfl
  · intro v
    unfold write_i16
    split
    · exact inc_bytes_misaligned _ 2 hbit
    · rfl
  · intro d
    unfold write_bytes32
    split
    · exact inc_bytes_misaligned _ 32 hbit
    · rfl
  · intro bs hlen
    unfold write_slice
    rw [if_neg (by omega : ¬bs.length ≥ 65535), hw16 bs.length]
  · intro reg v
    unfold write_value
    split
    · dsimp only
      split
      · exact inc_bytes_misaligned _ (reg.bits / 8) hbit
      · rfl
    · rfl

/-- Witness for C6 (amended) at a concrete misaligned cursor. -/
theorem c6_misaligned_amended_witness :
    read_u8 ⟨[0, 0], 0, 3, false⟩ = .fatal :=
  (c6_misaligned_amended ⟨[0, 0], 0, 3, false⟩ (by decide) rfl).1

/-- C10 (counterexample): a cursor whose end-of-buffer flag is set and
whose byte position is indexable in the buffer does not always get the
end-of-buffer error back from a write — at a non-zero bit offset,
`write_u8` mutates the buffer and then aborts on the alignment assertion
instead of returning any error. -/
theorem c10_atomicity_counterexample :
    write_u8 ⟨[5], 0, 1, true⟩ 42 = .fatal := by
  decide

/-- C10 (amended): failed cursor writes are not atomic. On a cursor whose
end-of-buffer flag is set, with the byte position (and, for multi-byte
writes, the whole accessed span) inside the buffer and — for the
byte-aligned writes — a zero bit offset, `write_bool`, the bit-field
writes, `write_u8`, `write_u16`, `write_i16` and `write_bytes32` first
mutate the underlying buffer at the current position and only afterwards
return the end-of-buffer error. -/
theorem c10_failed_write_mutates_amended (c : Cursor) (heof : c.eof = true) :
    (∀ b : Bool, c.byte_pos < c.bytecode.length →
      write_bool c b = .err .Eof { c with bytecode := c.bytecode.set c.byte_pos ((c.bytecode.getD c.byte_pos 0) ||| (((if b then 1 else 0) <<< c.bit_pos) % 256)) }) ∧
    (∀ w v : Nat, c.byte_pos < c.bytecode.length →
      write_uN c w v = .err .Eof { c with bytecode := c.bytecode.set c.byte_pos ((c.bytecode.getD c.byte_pos 0) ||| ((v <<< c.bit_pos) % 256)) }) ∧
    (∀ v : Nat, c.bit_pos = 0 → c.byte_pos < c.bytecode.length →
      write_u8 c v = .err .Eof { c with bytecode := c.bytecode.set c.byte_pos v }) ∧
    (∀ v : Nat, c.bit_pos = 0 → c.byte_pos + 2 ≤ c.bytecode.length →
      write_u16 c v = .err .Eof { c with bytecode := (c.bytecode.set c.byte_pos (v % 256)).set (c.byte_pos + 1) (v / 256 % 256) }) ∧
    (∀ v : Int, c.bit_pos = 0 → c.byte_pos + 2 ≤ c.bytecode.length →
      write_i16 c v = .err .Eof { c with bytecode := (c.bytecode.set c.byte_pos ((v.emod 65536).toNat % 256)).set (c.byte_pos + 1) ((v.emod 65536).toNat / 256 % 256) }) ∧
    (∀ d : List Nat, c.bit_pos = 0 → c.byte_pos + d.length ≤ c.bytecode.length →
      write_bytes32 c d = .err .Eof { c with bytecode := setRange c.bytecode c.byte_pos d }) := by
  refine ⟨?_, ?_, ?_, ?_, ?_, ?_⟩
  · intro b h
    unfold write_bool
    rw [if_pos h]
    exact inc_bits_eof _ 1 heof
  · intro w v h
    unfold write_uN
    rw [if_pos h]
    exact inc_bits_eof _ w heof
  · intro v hb h
    unfold write_u8
    rw [if_pos h]
    exact inc_bytes_eof_aligned _ 1 hb heof
  · intro v hb h
    unfold write_u16
    rw [if_pos h]
    exact inc_bytes_eof_aligned _ 2 hb heof
  · intro v hb h
    unfold write_i16
    rw [if_pos h]
    exact inc_bytes_eof_aligned _ 2 hb heof
  · intro d hb h
    unfold write_bytes32
    rw [if_pos h]
    exact inc_bytes_eof_aligned _ 32 hb heof

/-- Witness for C10 (amended): a failed `write_u8` on a concrete cursor
with the end-of-buffer flag set has changed the buffer from `[5, 5]` to
`[42, 5]` even though it reports the end-of-buffer error. -/
theorem c10_failed_write_mutates_amended_witness :
    write_u8 ⟨[5, 5], 0, 0, true⟩ 42 = .err .Eof ⟨[42, 5], 0, 0, true⟩ :=
  (c10_failed_write_mutates_amended ⟨[5, 5], 0, 0, true⟩ rfl).2.2.1 42 rfl (by norm_num)

theorem inc_bytes_ok (c : Cursor) (n : Nat) (hb : c.bit_pos = 0) (he : c.eof = false)
    (hn : n ≠ 1) (hle : c.byte_pos + n ≤ 65535) :
    inc_bytes c n = .ok () { c with byte_pos := c.byte_pos + n } := by
  unfold inc_bytes _inc_bytes_inner
  rw [if_neg (by simp [hb]), if_neg (by simp [he]),
    if_neg (fun h => hn h.1), if_pos hle]

theorem inc_bytes_oob (c : Cursor) (n : Nat) (hb : c.bit_pos = 0) (he : c.eof = false)
    (hn : n ≠ 1) (hgt : 65535 < c.byte_pos + n) :
    inc_bytes c n = .err (.OutOfBoundaries (c.byte_pos + n)) c := by
  unfold inc_bytes _inc_bytes_inner
  rw [if_neg (by simp [hb]), if_neg (by simp [he]),
    if_neg (fun h => hn h.1), if_neg (by omega)]

/-- C9 (counterexample): an overrunning multi-byte read does not always
abort. On the 2-byte buffer `[253, 255]` (length prefix 65533), the data
span of `read_slice` extends far past the end of the buffer, yet the
advance overflows the 16-bit address space first and the call returns the
`OutOfBoundaries` error instead of aborting on slice indexing. -/
theorem c9_overrun_counterexample :
    read_slice ⟨[253, 255], 0, 0, false⟩ =
      .err (.OutOfBoundaries 65537) ⟨[253, 255], 2, 0, false⟩ := by
  decide

/-- C9 (amended): with the end-of-buffer flag unset, `read_u16`,
`read_i16`, `read_bytes32` and `read_value` abort on slice indexing
whenever the accessed span extends past the buffer length, never
returning an error value; `read_slice` (byte-aligned, with a readable
prefix of value at most 65533) aborts the same way when its advance stays
inside the 16-bit address space, but when the advance overflows the
address space it instead returns the `OutOfBoundaries` error carrying
the attempted position. -/
theorem c9_overrun_amended (c : Cursor) (heof : c.eof = false)
    (hlen : c.bytecode.length < 65536) :
    (c.bytecode.length < c.byte_pos + 2 → read_u16 c = .fatal ∧ read_i16 c = .fatal) ∧
    (c.bytecode.length < c.byte_pos + 32 → read_bytes32 c = .fatal) ∧
    (∀ reg, c.bytecode.length < c.byte_pos + reg.bits / 8 → read_value c reg = .fatal) ∧
    (∀ len, c.bit_pos = 0 → c.byte_pos + 2 ≤ c.bytecode.length →
      len = c.bytecode.getD c.byte_pos 0 + 256 * c.bytecode.getD (c.byte_pos + 1) 0 →
      len ≤ 65533 →
      (c.byte_pos + 4 + len ≤ 65535 → c.bytecode.length < c.byte_pos + 2 + len →
        read_slice c = .fatal) ∧
      (65535 < c.byte_pos + 4 + len →
        read_slice c = .err (.OutOfBoundaries (c.byte_pos + 4 + len))
          { c with byte_pos := c.byte_pos + 2 })) := by
  have hne : ¬(c.eof = true) := by simp [heof]
  refine ⟨?_, ?_, ?_, ?_⟩
  · intro hspan
    constructor
    · unfold read_u16
      rw [if_neg hne, if_neg (by omega)]
    · unfold read_i16
      rw [if_neg hne, if_neg (by omega)]
  · intro hspan
    unfold read_bytes32
    rw [if_neg hne, if_neg (by omega)]
  · intro reg hspan
    unfold read_value
    rw [if_neg hne, if_neg (by omega)]
  · intro len hb hpre hval hsmall
    have h16 : read_u16 c = .ok len { c with byte_pos := c.byte_pos + 2 } := by
      unfold read_u16
      rw [if_neg hne, if_pos hpre,
        inc_bytes_ok c 2 hb heof (by omega) (by omega), hval]
      rfl
    have hmod : (2 + len) % 65536 = 2 + len := Nat.mod_eq_of_lt (by omega)
    constructor
    · intro haddr hspan
      unfold read_slice
      rw [if_neg hne, h16]
      dsimp only
      rw [hmod,
        inc_bytes_ok { c with byte_pos := c.byte_pos + 2 } (2 + len) hb heof
          (by omega) (by simpa using (by omega : c.byte_pos + 2 + (2 + len) ≤ 65535))]
      dsimp only
      rw [if_neg (by simpa using (by omega : ¬(c.byte_pos + 2 + len ≤ c.bytecode.length)))]
    · intro haddr
      unfold read_slice
      rw [if_neg hne, h16]
      dsimp only
      rw [hmod,
        inc_bytes_oob { c with byte_pos := c.byte_pos + 2 } (2 + len) hb heof
          (by omega) (by simpa using (by omega : 65535 < c.byte_pos + 2 + (2 + len)))]
      dsimp only
      rw [show c.byte_pos + 2 + (2 + len) = c.byte_pos + 4 + len from by omega]

/-- Witness for C9 (amended): a 2-byte read overrunning a concrete 1-byte
buffer aborts. -/
theorem c9_overrun_amended_witness :
    read_u16 ⟨[0], 0, 0, false⟩ = .fatal ∧ read_i16 ⟨[0], 0, 0, false⟩ = .fatal :=
  (c9_overrun_amended ⟨[0], 0, 0, false⟩ rfl (by norm_num)).1 (by norm_num)

theorem shiftLeft_lt_256 {x w bit : Nat} (hx : x < 2 ^ w) (h : bit + w ≤ 8) :
    x <<< bit < 256 := by
  rw [Nat.shiftLeft_eq]
  calc x * 2 ^ bit < 2 ^ w * 2 ^ bit :=
        (Nat.mul_lt_mul_right (Nat.pos_pow_of_pos bit (by norm_num))).mpr hx
    _ = 2 ^ (w + bit) := (pow_add 2 w bit).symm
    _ ≤ 2 ^ 8 := Nat.pow_le_pow_right (by norm_num) (by omega)

theorem mask_mod_256 (w bit : Nat) (h : bit + w ≤ 8) :
    (mkMask w <<< bit) % 256 = mkMask w <<< bit :=
  Nat.mod_eq_of_lt (shiftLeft_lt_256 (by rw [mkMask_eq]; exact Nat.sub_lt (Nat.pos_pow_of_pos w (by norm_num)) one_pos) h)

theorem extract_val (old v bit w : Nat) (_hbw : bit + w ≤ 8) (hv : v < 2 ^ w)
    (hclear : old &&& (mkMask w <<< bit) = 0) :
    ((old ||| (v <<< bit)) &&& (mkMask w <<< bit)) >>> bit = v := by
  have hcl : ∀ j, (old.testBit j && (mkMask w <<< bit).testBit j) = false := by
    intro j
    have h0 := congrArg (fun x => Nat.testBit x j) hclear
    simpa [Nat.testBit_and] using h0
  apply Nat.eq_of_testBit_eq
  intro i
  have hge : bit ≤ bit + i := Nat.le_add_right _ _
  have hsub : bit + i - bit = i := by omega
  simp only [Nat.testBit_shiftRight, Nat.testBit_and, Nat.testBit_or,
    Nat.testBit_shiftLeft, mkMask_testBit, hsub, hge, ge_iff_le, decide_True,
    Bool.true_and]
  by_cases hiw : i < w
  · have hold : old.testBit (bit + i) = false := by
      have hj := hcl (bit + i)
      simpa [Nat.testBit_shiftLeft, mkMask_testBit, hsub, hge, hiw] using hj
    simp [hold, hiw]
  · have hvi : v.testBit i = false :=
      Nat.testBit_lt_two_pow
        (lt_of_lt_of_le hv (Nat.pow_le_pow_right (by norm_num) (by omega)))
    simp [hiw, hvi]

theorem inc_bits_ok_of (c : Cursor) (n : Nat) (he : c.eof = false)
    (hp : c.byte_pos ≤ 65535) (hn : c.bit_pos + n ≤ 8) :
    ∃ c', inc_bits c n = .ok () c' ∧ c'.bytecode = c.bytecode := by
  unfold inc_bits
  rw [if_neg (by simp [he])]
  unfold _inc_bytes_inner
  dsimp only
  by_cases h8 : c.bit_pos + n = 8
  · rw [h8]
    by_cases hmax : c.byte_pos = 65535
    · rw [if_pos ⟨by norm_num, hmax⟩]
      exact ⟨_, rfl, rfl⟩
    · rw [if_neg (fun hh => hmax hh.2), if_pos (by omega)]
      exact ⟨_, rfl, rfl⟩
  · rw [Nat.div_eq_of_lt (by omega : c.bit_pos + n < 8)]
    rw [if_neg (by simp), if_pos (by omega)]
    exact ⟨_, rfl, rfl⟩

/-- C7 (counterexample): a bit-field write whose field straddles the byte
boundary silently drops the bits shifted out of the current byte, and a
write into a byte whose target bits are already set leaves a stale value,
so writing then reading at the same position does not always return the
written value: at (byte 0, bit 7), writing the 2-bit value 3 reads back
as 1, and on the dirty byte `[255]`, writing the 1-bit value 0 reads back
as 1 — while the cursor positions after write and read do agree. -/
theorem c7_bitfield_counterexample :
    write_uN ⟨[0, 0], 0, 7, false⟩ 2 3 = .ok () ⟨[128, 0], 1, 1, false⟩ ∧
    read_uN ⟨[128, 0], 0, 7, false⟩ 2 = .ok 1 ⟨[128, 0], 1, 1, false⟩ ∧
    write_uN ⟨[255], 0, 0, false⟩ 1 0 = .ok () ⟨[255], 0, 1, false⟩ ∧
    read_uN ⟨[255], 0, 0, false⟩ 1 = .ok 1 ⟨[255], 0, 1, false⟩ ∧
    (1 : Nat) ≠ 3 ∧ (1 : Nat) ≠ 0 := by
  decide

/-- C7 (amended): for every bit-field width `w` in 1..=7 and value
`v < 2 ^ w`, provided the field fits inside the current byte
(`bit + w ≤ 8`), the byte position is inside the buffer, and the target
bits of that byte are currently clear, writing `v` and then reading `w`
bits starting at the same (byte, bit) position returns `v`, and the
cursor state after the write equals the cursor state after the read. -/
theorem c7_bitfield_roundtrip_amended (buf : List Nat) (bp bit w v : Nat)
    (_hw1 : 1 ≤ w) (_hw7 : w ≤ 7) (hv : v < 2 ^ w) (hfit : bit + w ≤ 8)
    (hbp : bp < buf.length) (hmax : bp ≤ 65535)
    (hclear : (buf.getD bp 0) &&& (mkMask w <<< bit) = 0) :
    ∃ cw : Cursor,
      write_uN ⟨buf, bp, bit, false⟩ w v = .ok () cw ∧
      read_uN ⟨cw.bytecode, bp, bit, false⟩ w = .ok v cw := by
  have hvs : (v <<< bit) % 256 = v <<< bit :=
    Nat.mod_eq_of_lt (shiftLeft_lt_256 hv hfit)
  obtain ⟨c', hinc, hbc⟩ :=
    inc_bits_ok_of ⟨buf.set bp ((buf.getD bp 0) ||| ((v <<< bit) % 256)), bp, bit, false⟩
      w rfl hmax hfit
  have hwrite : write_uN ⟨buf, bp, bit, false⟩ w v = .ok () c' := by
    unfold write_uN
    rw [if_pos hbp]
    exact hinc
  refine ⟨c', hwrite, ?_⟩
  have hread : read_uN ⟨buf.set bp ((buf.getD bp 0) ||| ((v <<< bit) % 256)), bp, bit, false⟩ w
      = .ok v c' := by
    unfold read_uN extract
    dsimp only
    rw [if_neg (by simp : ¬(false = true)),
      if_pos (by simpa using hbp :
        bp < (buf.set bp ((buf.getD bp 0) ||| ((v <<< bit) % 256))).length),
      hinc]
    dsimp only [Outcome.withVal]
    have hgetD : (buf.set bp ((buf.getD bp 0) ||| ((v <<< bit) % 256))).getD bp 0
        = (buf.getD bp 0) ||| ((v <<< bit) % 256) := by
      simp [List.getD_eq_getElem?_getD, List.getElem?_set_self hbp]
    rw [hgetD, hvs, mask_mod_256 w bit hfit, extract_val _ _ _ _ hfit hv hclear]
  rw [hbc]
  exact hread

/-- Witness for C7 (amended): a 4-bit field written at (byte 0, bit 3)
into a clear buffer reads back unchanged. -/
theorem c7_bitfield_roundtrip_amended_witness :
    ∃ cw : Cursor,
      write_uN ⟨[0, 0], 0, 3, false⟩ 4 9 = .ok () cw ∧
      read_uN ⟨cw.bytecode, 0, 3, false⟩ 4 = .ok 9 cw :=
  c7_bitfield_roundtrip_amended [0, 0] 0 3 4 9 (by norm_num) (by norm_num)
    (by norm_num) (by norm_num) (by norm_num) (by norm_num) (by decide)

end AluVM
